import Mathlib

/-!
Verification of `kitty/rc/set_colors.py` (the `set-colors` remote command).

The Python module is shallowly embedded: Python `dict`s become association
lists with unique keys maintained by an insert-or-replace update, colors
become their 24-bit integer projection, exceptions become `Except`, and the
external collaborators (the per-line config parser `parse_config`, the
filesystem, `os.path.expanduser`, and the fixed `nullable_colors` tuple)
become explicit parameters so theorems quantify over every possible
behaviour of those collaborators.
-/

set_option autoImplicit false

namespace KittyRC

/-- The 24-bit color value of `kitty.fast_data_types.Color`; `toInt` is the
`int(color)` projection used by `parse_colors` and `response_from_kitty`. -/
structure Color where
  val : Nat
  deriving DecidableEq, Repr

def Color.toInt (c : Color) : Nat := c.val

/-- A value produced by the config-line parser `parse_config` for some option:
either a `Color` object, the `None` value (a nullable color set to none), or a
typed value of any other (non-color) option type. -/
inductive CVal where
  | color (c : Color)
  | cnone
  | other
  deriving DecidableEq, Repr

/-- Python `dict[str, α]` as an association list: unique keys are maintained
by `dset` (insert-or-replace), and iteration order is the list order. -/
abbrev Dict (α : Type) : Type := List (String × α)

/-- Lookup of the first entry with the given key (`d[k]` / `d.get(k)`). -/
def dlookup {α : Type} (d : Dict α) (k : String) : Option α :=
  match d with
  | [] => none
  | (k', v) :: d' => if k' = k then some v else dlookup d' k

/-- Key membership test, `k in d`. -/
def dmem {α : Type} (d : Dict α) (k : String) : Bool :=
  (dlookup d k).isSome

/-- Set one key, `d[k] = v`: replace the existing entry in place, or append a
new entry at the end, exactly as a Python dict insertion behaves. -/
def dset {α : Type} (d : Dict α) (k : String) (v : α) : Dict α :=
  match d with
  | [] => [(k, v)]
  | (k', v') :: d' => if k' = k then (k, v) :: d' else (k', v') :: dset d' k v

/-- Python `d.update(e)`: set every entry of `e` into `d`, in `e`'s order. -/
def dupdate {α : Type} (d e : Dict α) : Dict α :=
  match e with
  | [] => d
  | (k, v) :: e' => dupdate (dset d k v) e'

/-- Python `d.pop(k)` (the removal part): drop the first entry with key `k`. -/
def dremove {α : Type} (d : Dict α) (k : String) : Dict α :=
  match d with
  | [] => []
  | (k', v) :: d' => if k' = k then d' else (k', v) :: dremove d' k

/-- Value of the LAST entry for a key, i.e. the value a sequence of dict
insertions in list order would leave in place. -/
def lastEntry {α : Type} (d : Dict α) (k : String) : Option α :=
  match d with
  | [] => none
  | (k', v) :: d' =>
    match lastEntry d' k with
    | some v' => some v'
    | none => if k' = k then some v else none

/-- Keys of a dict, in order. -/
def dkeys {α : Type} (d : Dict α) : List String := d.map Prod.fst

/-- Uniqueness of keys: the invariant every dict built by `dset` satisfies. -/
def NodupKeys {α : Type} (d : Dict α) : Prop := (dkeys d).Nodup

/-- The membership test `'=' in spec`, character-wise on the token's text. -/
def strContainsEq (s : String) : Bool := s.data.contains '='

/-- The call `spec.replace('=', ' ')`: with a one-character pattern, Python's
`str.replace` substitutes every occurrence of that character. -/
def replaceEqWithSpace (s : String) : String :=
  ⟨s.data.map (fun c => if c = '=' then ' ' else c)⟩

/-- A per-line config parser: given one configuration line it yields an error
message (malformed line), no entry, or exactly one `key ↦ typed value` entry.
This is the abstract interface of `kitty.config.parse_config`'s line grammar;
theorems quantify over it. -/
def LineParserT : Type := String → Except String (Option (String × CVal))

/-- Modelled from the spec: `kitty.config.parse_config` (not in src) parses an
iterable of configuration lines into a dict, each line contributing at most
one `key ↦ value` entry, later lines overriding earlier ones. `pc_go` is the
accumulating loop, starting from the empty dict. -/
def pc_go (pcl : LineParserT) (d : Dict CVal) : List String → Except String (Dict CVal)
  | [] => .ok d
  | line :: rest =>
    match pcl line with
    | .error e => .error e
    | .ok none => pc_go pcl d rest
    | .ok (some (k, v)) => pc_go pcl (dset d k v) rest

/-- Modelled from the spec: `parse_config` over a list of lines builds a fresh
dict from the empty one. -/
def parse_config (pcl : LineParserT) (lines : List String) : Except String (Dict CVal) :=
  pc_go pcl [] lines

/-- The abstract filesystem: `fs path = some lines` when `open(path)` succeeds
and yields those lines, `none` when the file is missing (`FileNotFoundError`). -/
def FileSystemT : Type := String → Option (List String)

/-- The abstract `os.path.expanduser`. -/
def ExpandUserT : Type := String → String

/-- An exception escaping `parse_colors`: `FileNotFoundError` (with the
filename attribute) or any other exception (with its message). -/
inductive ParseErr where
  | fileNotFound (filename : String)
  | malformed (msg : String)
  deriving DecidableEq, Repr

/-- One iteration of the loop in `parse_colors`: a token containing `=` is
parsed inline as a config line with `=` replaced by a space; any other token
is opened as a file (after `expanduser`) and its lines parsed; either way the
resulting entries are merged into `colors` by `dict.update`. -/
def mergeToken (pcl : LineParserT) (fs : FileSystemT) (eu : ExpandUserT)
    (colors : Dict CVal) (t : String) : Except ParseErr (Dict CVal) :=
  if strContainsEq t then
    match parse_config pcl [replaceEqWithSpace t] with
    | .ok pd => .ok (dupdate colors pd)
    | .error m => .error (.malformed m)
  else
    match fs (eu t) with
    | none => .error (.fileNotFound (eu t))
    | some lines =>
      match parse_config pcl lines with
      | .ok pd => .ok (dupdate colors pd)
      | .error m => .error (.malformed m)

/-- The whole `for spec in args` loop of `parse_colors`. -/
def mergeTokens (pcl : LineParserT) (fs : FileSystemT) (eu : ExpandUserT)
    (colors : Dict CVal) : List String → Except ParseErr (Dict CVal)
  | [] => .ok colors
  | t :: ts =>
    match mergeToken pcl fs eu colors t with
    | .ok d => mergeTokens pcl fs eu d ts
    | .error e => .error e

/-- Conversion of a nullable entry's value: `int(q) if isinstance(q, Color)
else None`. -/
def cvalToOptInt (q : CVal) : Option Nat :=
  match q with
  | .color c => some c.toInt
  | .cnone => none
  | .other => none

/-- The `for k in nullable_colors` loop of `parse_colors`: pop every nullable
key out of `colors` and record it in `nullable_color_map` as integer-or-null. -/
def extract_go (colors : Dict CVal) (nm : Dict (Option Nat)) :
    List String → Dict CVal × Dict (Option Nat)
  | [] => (colors, nm)
  | k :: ks =>
    match dlookup colors k with
    | none => extract_go colors nm ks
    | some q => extract_go (dremove colors k) (dset nm k (cvalToOptInt q)) ks

/-- One entry of the comprehension
`{k: int(v) for k, v in colors.items() if isinstance(v, Color)}`: kept as a
plain integer when the value is a `Color`, dropped otherwise. -/
def colorEntryToInt (kv : String × CVal) : Option (String × Option Nat) :=
  match kv.2 with
  | .color c => some (kv.1, some c.toInt)
  | _ => none

/-- The tail of `parse_colors` after the merge loop: extract the nullable
keys, keep the remaining `Color` values as plain integers, then overlay the
nullable map (`ans.update(nullable_color_map)`). -/
def finishColors (nc : List String) (colors : Dict CVal) : Dict (Option Nat) :=
  let res := extract_go colors [] nc
  let ans : Dict (Option Nat) := res.1.filterMap colorEntryToInt
  dupdate ans res.2

/-- The function `parse_colors(args)`, parameterized by the line parser, the
filesystem, `expanduser` and the `nullable_colors` name list. -/
def parse_colors (pcl : LineParserT) (fs : FileSystemT) (eu : ExpandUserT)
    (nc : List String) (args : List String) : Except ParseErr (Dict (Option Nat)) :=
  match mergeTokens pcl fs eu [] args with
  | .ok d => .ok (finishColors nc d)
  | .error e => .error e

/-- The parsed command-line options of `set-colors` (`SetColorsRCOptions`).
The Python attribute `opts.match` is spelled `match_` here because `match` is
a Lean keyword. -/
structure CLIOptions where
  all : Bool
  configured : Bool
  reset : Bool
  match_ : String
  match_tab : String
  deriving DecidableEq, Repr

/-- The payload dict built by `message_to_kitty`. -/
structure Payload where
  match_window : String
  match_tab : String
  all : Bool
  configured : Bool
  colors : Dict (Option Nat)
  reset : Bool

/-- The client-side argument error `ParsingOfArgsFailed`. -/
inductive RCError where
  | parsingOfArgsFailed (msg : String)
  deriving DecidableEq, Repr

/-- Modelled from the spec: `kitty.cli.emph` (not in src) wraps text in
terminal emphasis markup; modelled as the identity on the text it carries. -/
def emph (s : String) : String := s

/-- The method `SetColors.message_to_kitty`: with `reset` unset, parse the
positional arguments (mapping `FileNotFoundError` and any other exception to
`ParsingOfArgsFailed`); then build the payload. -/
def message_to_kitty (pcl : LineParserT) (fs : FileSystemT) (eu : ExpandUserT)
    (nc : List String) (opts : CLIOptions) (args : List String) :
    Except RCError Payload :=
  let finalColorsE : Except RCError (Dict (Option Nat)) :=
    if opts.reset then .ok []
    else
      match parse_colors pcl fs eu nc args with
      | .ok fc => .ok fc
      | .error (.fileNotFound fn) =>
        .error (.parsingOfArgsFailed
          ("The colors configuration file " ++ emph fn ++ " was not found."))
      | .error (.malformed m) => .error (.parsingOfArgsFailed m)
  match finalColorsE with
  | .error e => .error e
  | .ok final_colors =>
    .ok { match_window := opts.match_, match_tab := opts.match_tab,
          all := opts.all || opts.reset, configured := opts.configured || opts.reset,
          colors := final_colors, reset := opts.reset }

/-! Host side: `SetColors.response_from_kitty`. Target resolution
(`windows_for_payload`) lives in `rc/base.py`, outside the shown source, so
the resolved window sequence — possibly containing `None` entries, which the
code skips with `if w:` — is taken as an input; the claims quantify over it. -/

/-- A live per-window color table (`ColorProfile`), as a total map from color
names to 24-bit integer or null. -/
def ColorTable : Type := String → Option Nat

/-- A resolved live window: its id and its `screen.color_profile` table. -/
structure Window where
  id : Nat
  color_profile : ColorTable

/-- Modelled from the spec: applying a color map to a color table sets every
name the map mentions to the map's integer-or-null value and leaves every
other name unchanged. -/
def applyColors (colors : Dict (Option Nat)) (p : ColorTable) : ColorTable :=
  fun name =>
    match dlookup colors name with
    | some v => v
    | none => p name

/-- Modelled from the spec: `patch_color_profiles` (`kitty.fast_data_types`,
not in src) applies the color map to every given live `ColorProfile`
unconditionally; the shared configured state is handled by `Boss.patch_colors`. -/
def patch_color_profiles (colors : Dict (Option Nat)) (profiles : List ColorTable)
    (_configured : Bool) : List ColorTable :=
  profiles.map (applyColors colors)

/-- Modelled from the spec: `Boss.patch_colors` (not in src) applies the color
map to the shared `ConfiguredColorProfile` exactly when `configured` is set,
and leaves it unchanged otherwise. -/
def boss_patch_colors (colors : Dict (Option Nat)) (cfg : ColorTable)
    (configured : Bool) : ColorTable :=
  if configured then applyColors colors cfg else cfg

/-- A host-side notification observable by redraw logic:
`boss.default_bg_changed_for(w.id)` or `w.refresh()`. -/
inductive HostEvent where
  | bgChangedFor (id : Nat)
  | refresh (id : Nat)
  deriving DecidableEq, Repr

/-- The host (`Boss`) state the command touches: the immutable startup color
snapshot `boss.color_settings_at_startup` (name ↦ `Color`-or-null) and the
shared configured color table. -/
structure BossState where
  color_settings_at_startup : Dict (Option Color)
  configured_profile : ColorTable

/-- The comprehension
`{k: None if v is None else int(v) for k, v in boss.color_settings_at_startup.items()}`. -/
def snapshotInts (boss : BossState) : Dict (Option Nat) :=
  boss.color_settings_at_startup.map (fun kv => (kv.1, kv.2.map Color.toInt))

/-- The color map `response_from_kitty` actually applies: the payload's map,
or the integer-converted startup snapshot when `reset` is set. -/
def applied_colors (boss : BossState) (payload : Payload) : Dict (Option Nat) :=
  if payload.reset then snapshotInts boss else payload.colors

/-- The windows the loops iterate: `for w in windows if w` drops `None`s. -/
def resolvedWindows (windows : List (Option Window)) : List Window :=
  windows.filterMap id

/-- The outcome of `response_from_kitty`: the final live color tables of the
resolved windows (in order), the final configured table, and the notification
sequence in emission order. The Python return value itself is always `None`. -/
structure RFKResult where
  live_profiles : List ColorTable
  configured_profile : ColorTable
  events : List HostEvent

/-- The method `SetColors.response_from_kitty` on an already-resolved window
sequence: substitute the startup snapshot on `reset`, patch every live
profile and (conditionally) the configured state, then walk the windows
emitting a background-change notification (when `background` is in the map)
followed by a refresh for each. -/
def response_from_kitty (boss : BossState) (windows : List (Option Window))
    (payload : Payload) : RFKResult :=
  let colors := applied_colors boss payload
  let profiles := (resolvedWindows windows).map Window.color_profile
  let live := patch_color_profiles colors profiles payload.configured
  let cfg := boss_patch_colors colors boss.configured_profile payload.configured
  let default_bg_changed := dmem colors "background"
  let events := (resolvedWindows windows).flatMap (fun w =>
    (if default_bg_changed then [HostEvent.bgChangedFor w.id] else [])
      ++ [HostEvent.refresh w.id])
  { live_profiles := live, configured_profile := cfg, events := events }

/-- Rerunning the command needs the windows carrying their new live tables:
reassign the given tables to the non-`None` windows in order. -/
def setProfiles : List (Option Window) → List ColorTable → List (Option Window)
  | [], _ => []
  | none :: ws, ps => none :: setProfiles ws ps
  | some w :: ws, [] => some w :: ws
  | some w :: ws, p :: ps => some { w with color_profile := p } :: setProfiles ws ps

/-! Concrete instances used to evaluate the development on closed inputs. -/

/-- A sample line parser: a handful of fixed lines parse to one entry each,
one line is malformed, everything else contributes nothing. -/
def pclSample : LineParserT := fun line =>
  if line = "background 255" then .ok (some ("background", .color ⟨255⟩))
  else if line = "background 1" then .ok (some ("background", .color ⟨1⟩))
  else if line = "foreground 7" then .ok (some ("foreground", .color ⟨7⟩))
  else if line = "cursor none" then .ok (some ("cursor", .cnone))
  else if line = "scrollback 100" then .ok (some ("scrollback", .other))
  else if line = "bad stuff" then .error "malformed line"
  else .ok none

/-- A sample filesystem holding one theme file. -/
def fsSample : FileSystemT := fun path =>
  if path = "theme.conf" then some ["background 255", "cursor none"] else none

def euSample : ExpandUserT := fun s => s

def ncSample : List String := ["cursor", "cursor_text_color"]

def tableEmpty : ColorTable := fun _ => none

def winSample : Window := { id := 1, color_profile := tableEmpty }

def bossSample : BossState :=
  { color_settings_at_startup := [("background", some ⟨255⟩), ("cursor", none)],
    configured_profile := tableEmpty }

def optsSample : CLIOptions :=
  { all := false, configured := false, reset := false, match_ := "", match_tab := "" }

def payloadSample : Payload :=
  { match_window := "", match_tab := "", all := false, configured := false,
    colors := [("background", some 1), ("cursor", none)], reset := false }

/-! Lemmas about the dict embedding. -/

theorem dlookup_dset {α : Type} (d : Dict α) (k k' : String) (v : α) :
    dlookup (dset d k v) k' = if k = k' then some v else dlookup d k' := by
  induction d with
  | nil => simp [dset, dlookup]
  | cons kv d ih =>
    obtain ⟨k0, v0⟩ := kv
    by_cases h0 : k0 = k
    · subst h0
      by_cases h1 : k0 = k'
      · subst h1; simp [dset, dlookup]
      · simp [dset, dlookup, h1]
    · by_cases h1 : k0 = k'
      · subst h1
        have hkk : ¬ k = k0 := fun h => h0 h.symm
        simp [dset, dlookup, h0, hkk]
      · simp [dset, dlookup, h0, h1, ih]

theorem dlookup_dupdate {α : Type} (e d : Dict α) (k : String) :
    dlookup (dupdate d e) k =
      match lastEntry e k with
      | some v => some v
      | none => dlookup d k := by
  induction e generalizing d with
  | nil => simp [dupdate, lastEntry]
  | cons kv e ih =>
    obtain ⟨k0, v0⟩ := kv
    rw [dupdate, ih]
    cases h : lastEntry e k with
    | some v => simp [lastEntry, h]
    | none =>
      by_cases hk : k0 = k
      · subst hk; simp [lastEntry, h, dlookup_dset]
      · simp [lastEntry, h, hk, dlookup_dset]

theorem mem_of_dlookup {α : Type} {d : Dict α} {k : String} {v : α}
    (h : dlookup d k = some v) : (k, v) ∈ d := by
  induction d with
  | nil => simp [dlookup] at h
  | cons kv d ih =>
    obtain ⟨k0, v0⟩ := kv
    by_cases hk : k0 = k
    · subst hk
      simp [dlookup] at h
      simp [h]
    · simp [dlookup, hk] at h
      exact List.mem_cons_of_mem _ (ih h)

theorem dlookup_isSome_of_mem {α : Type} {d : Dict α} {k : String} {v : α}
    (h : (k, v) ∈ d) : (dlookup d k).isSome = true := by
  induction d with
  | nil => simp at h
  | cons kv d ih =>
    obtain ⟨k0, v0⟩ := kv
    rcases List.mem_cons.mp h with h1 | h1
    · cases h1
      simp [dlookup]
    · by_cases hk : k0 = k
      · simp [dlookup, hk]
      · simp [dlookup, hk]
        exact ih h1

theorem lastEntry_eq_none {α : Type} {e : Dict α} {k : String}
    (h : k ∉ dkeys e) : lastEntry e k = none := by
  induction e with
  | nil => simp [lastEntry]
  | cons kv e ih =>
    obtain ⟨k0, v0⟩ := kv
    simp [dkeys] at h
    have h1 : k ∉ dkeys e := by simp [dkeys]; exact h.2
    have h0 : ¬ k0 = k := fun hh => h.1 hh.symm
    simp [lastEntry, ih h1, h0]

theorem dkeys_cons {α : Type} (k0 : String) (v0 : α) (d : Dict α) :
    dkeys ((k0, v0) :: d) = k0 :: dkeys d := rfl

theorem dset_cons_self {α : Type} (k : String) (v0 v : α) (d : Dict α) :
    dset ((k, v0) :: d) k v = (k, v) :: d := by
  simp [dset]

theorem dset_cons_ne {α : Type} {k0 k : String} (h : ¬ k0 = k) (v0 v : α)
    (d : Dict α) : dset ((k0, v0) :: d) k v = (k0, v0) :: dset d k v := by
  simp [dset, h]

theorem dremove_cons_self {α : Type} (k : String) (v0 : α) (d : Dict α) :
    dremove ((k, v0) :: d) k = d := by
  simp [dremove]

theorem dremove_cons_ne {α : Type} {k0 k : String} (h : ¬ k0 = k) (v0 : α)
    (d : Dict α) : dremove ((k0, v0) :: d) k = (k0, v0) :: dremove d k := by
  simp [dremove, h]

theorem mem_dkeys {α : Type} {d : Dict α} {k : String} :
    k ∈ dkeys d ↔ ∃ v, (k, v) ∈ d := by
  constructor
  · intro h
    rcases List.mem_map.mp h with ⟨⟨k1, v1⟩, hkv, hfst⟩
    cases hfst
    exact ⟨v1, hkv⟩
  · rintro ⟨v, hv⟩
    exact List.mem_map.mpr ⟨(k, v), hv, rfl⟩

theorem nodupKeys_cons {α : Type} {k0 : String} {v0 : α} {d : Dict α} :
    NodupKeys ((k0, v0) :: d) ↔ k0 ∉ dkeys d ∧ NodupKeys d := by
  unfold NodupKeys
  rw [dkeys_cons, List.nodup_cons]

theorem mem_dkeys_dset {α : Type} (d : Dict α) (k a : String) (v : α) :
    a ∈ dkeys (dset d k v) ↔ a = k ∨ a ∈ dkeys d := by
  induction d with
  | nil => simp [dset, dkeys]
  | cons kv d ih =>
    obtain ⟨k0, v0⟩ := kv
    by_cases hk : k0 = k
    · subst hk
      rw [dset_cons_self]
      simp only [dkeys_cons, List.mem_cons]
      tauto
    · rw [dset_cons_ne hk]
      simp only [dkeys_cons, List.mem_cons, ih]
      tauto

theorem nodupKeys_dset {α : Type} {d : Dict α} (k : String) (v : α)
    (h : NodupKeys d) : NodupKeys (dset d k v) := by
  induction d with
  | nil => simp [dset, NodupKeys, dkeys]
  | cons kv d ih =>
    obtain ⟨k0, v0⟩ := kv
    rcases nodupKeys_cons.mp h with ⟨h1, h2⟩
    by_cases hk : k0 = k
    · subst hk
      rw [dset_cons_self]
      exact nodupKeys_cons.mpr ⟨h1, h2⟩
    · rw [dset_cons_ne hk]
      refine nodupKeys_cons.mpr ⟨?_, ih h2⟩
      intro hmem
      rcases (mem_dkeys_dset d k k0 v).mp hmem with h3 | h3
      · exact hk h3
      · exact h1 h3

theorem nodupKeys_dupdate {α : Type} {d : Dict α} (e : Dict α)
    (h : NodupKeys d) : NodupKeys (dupdate d e) := by
  induction e generalizing d with
  | nil => simpa [dupdate] using h
  | cons kv e ih =>
    obtain ⟨k0, v0⟩ := kv
    exact ih (nodupKeys_dset k0 v0 h)

theorem lastEntry_eq_dlookup {α : Type} {d : Dict α} (k : String)
    (h : NodupKeys d) : lastEntry d k = dlookup d k := by
  induction d with
  | nil => rfl
  | cons kv d ih =>
    obtain ⟨k0, v0⟩ := kv
    rcases nodupKeys_cons.mp h with ⟨h1, h2⟩
    by_cases hk : k0 = k
    · subst hk
      simp [lastEntry, dlookup, lastEntry_eq_none h1]
    · simp only [lastEntry, dlookup, if_neg hk, ih h2]
      cases hd : dlookup d k <;> simp [hk]

theorem mem_of_mem_dremove {α : Type} {d : Dict α} {k' : String}
    {kv : String × α} (h : kv ∈ dremove d k') : kv ∈ d := by
  induction d with
  | nil => simp [dremove] at h
  | cons kv0 d ih =>
    obtain ⟨k0, v0⟩ := kv0
    by_cases hk : k0 = k'
    · subst hk
      simp [dremove] at h
      exact List.mem_cons_of_mem _ h
    · simp [dremove, hk] at h
      rcases h with h | h
      · simp [h]
      · exact List.mem_cons_of_mem _ (ih h)

theorem nodupKeys_dremove {α : Type} {d : Dict α} (k' : String)
    (h : NodupKeys d) : NodupKeys (dremove d k') := by
  induction d with
  | nil => simpa [dremove] using h
  | cons kv d ih =>
    obtain ⟨k0, v0⟩ := kv
    rcases nodupKeys_cons.mp h with ⟨h1, h2⟩
    by_cases hk : k0 = k'
    · subst hk
      rw [dremove_cons_self]
      exact h2
    · rw [dremove_cons_ne hk]
      refine nodupKeys_cons.mpr ⟨?_, ih h2⟩
      intro hmem
      rcases mem_dkeys.mp hmem with ⟨v1, hv1⟩
      exact h1 (mem_dkeys.mpr ⟨v1, mem_of_mem_dremove hv1⟩)

theorem dlookup_dremove_self {α : Type} {d : Dict α} (k : String)
    (h : NodupKeys d) : dlookup (dremove d k) k = none := by
  induction d with
  | nil => rfl
  | cons kv d ih =>
    obtain ⟨k0, v0⟩ := kv
    rcases nodupKeys_cons.mp h with ⟨h1, h2⟩
    by_cases hk : k0 = k
    · subst hk
      rw [dremove_cons_self]
      cases hd : dlookup d k0 with
      | none => rfl
      | some v => exact absurd (mem_dkeys.mpr ⟨v, mem_of_dlookup hd⟩) h1
    · rw [dremove_cons_ne hk]
      simp [dlookup, hk, ih h2]

theorem dlookup_dremove_none {α : Type} {d : Dict α} {k : String} (k' : String)
    (h : dlookup d k = none) : dlookup (dremove d k') k = none := by
  induction d with
  | nil => simp [dremove, dlookup]
  | cons kv d ih =>
    obtain ⟨k0, v0⟩ := kv
    by_cases hk : k0 = k
    · subst hk; simp [dlookup] at h
    · simp [dlookup, hk] at h
      by_cases hk' : k0 = k'
      · subst hk'; simpa [dremove] using h
      · simp [dremove, dlookup, hk, hk', ih h]

/-! Lemmas about the host-side application. -/

theorem flatMap_single {A B : Type} (l : List A) (f : A → B) :
    (l.flatMap fun x => [f x]) = l.map f := by
  induction l with
  | nil => rfl
  | cons a l ih => simp [ih]

theorem applyColors_idem (cs : Dict (Option Nat)) (p : ColorTable) :
    applyColors cs (applyColors cs p) = applyColors cs p := by
  funext name
  unfold applyColors
  cases dlookup cs name <;> simp

theorem resolved_setProfiles (windows : List (Option Window))
    (f : ColorTable → ColorTable) :
    (resolvedWindows (setProfiles windows
        (((resolvedWindows windows).map Window.color_profile).map f))).map
      Window.color_profile =
    ((resolvedWindows windows).map Window.color_profile).map f := by
  induction windows with
  | nil => rfl
  | cons ow ws ih =>
    cases ow with
    | none => simpa [resolvedWindows, setProfiles] using ih
    | some w => simpa [resolvedWindows, setProfiles] using ih

/-! Lemmas about the merge loop and the nullable extraction. -/

theorem mergeTokens_append (pcl : LineParserT) (fs : FileSystemT)
    (eu : ExpandUserT) (d : Dict CVal) (xs ys : List String) :
    mergeTokens pcl fs eu d (xs ++ ys) =
      match mergeTokens pcl fs eu d xs with
      | .ok d' => mergeTokens pcl fs eu d' ys
      | .error e => .error e := by
  induction xs generalizing d with
  | nil => simp [mergeTokens]
  | cons t ts ih =>
    simp only [List.cons_append, mergeTokens]
    cases mergeToken pcl fs eu d t with
    | ok d' => exact ih d'
    | error e => rfl

theorem parse_config_single {pcl : LineParserT} {line : String}
    {k : String} {v : CVal} (h : pcl line = .ok (some (k, v))) :
    parse_config pcl [line] = .ok [(k, v)] := by
  simp [parse_config, pc_go, h, dset]

theorem mergeToken_nodup {pcl : LineParserT} {fs : FileSystemT}
    {eu : ExpandUserT} {c d : Dict CVal} {t : String}
    (hc : NodupKeys c) (h : mergeToken pcl fs eu c t = .ok d) : NodupKeys d := by
  by_cases hct : strContainsEq t
  · cases hpc : parse_config pcl [replaceEqWithSpace t] with
    | ok pd =>
      have h2 : mergeToken pcl fs eu c t = .ok (dupdate c pd) := by
        simp [mergeToken, hct, hpc]
      rw [h2] at h
      simp only [Except.ok.injEq] at h
      exact h ▸ nodupKeys_dupdate pd hc
    | error m =>
      have h2 : mergeToken pcl fs eu c t = .error (.malformed m) := by
        simp [mergeToken, hct, hpc]
      rw [h2] at h
      exact absurd h (by simp)
  · cases hfs : fs (eu t) with
    | none =>
      have h2 : mergeToken pcl fs eu c t = .error (.fileNotFound (eu t)) := by
        simp [mergeToken, hct, hfs]
      rw [h2] at h
      exact absurd h (by simp)
    | some lines =>
      cases hpc : parse_config pcl lines with
      | ok pd =>
        have h2 : mergeToken pcl fs eu c t = .ok (dupdate c pd) := by
          simp [mergeToken, hct, hfs, hpc]
        rw [h2] at h
        simp only [Except.ok.injEq] at h
        exact h ▸ nodupKeys_dupdate pd hc
      | error m =>
        have h2 : mergeToken pcl fs eu c t = .error (.malformed m) := by
          simp [mergeToken, hct, hfs, hpc]
        rw [h2] at h
        exact absurd h (by simp)

theorem mergeTokens_nodup {pcl : LineParserT} {fs : FileSystemT}
    {eu : ExpandUserT} {c d : Dict CVal} {args : List String}
    (hc : NodupKeys c) (h : mergeTokens pcl fs eu c args = .ok d) :
    NodupKeys d := by
  induction args generalizing c with
  | nil =>
    simp only [mergeTokens, Except.ok.injEq] at h
    exact h ▸ hc
  | cons t ts ih =>
    simp only [mergeTokens] at h
    cases hm : mergeToken pcl fs eu c t with
    | ok d' =>
      rw [hm] at h
      exact ih (mergeToken_nodup hc hm) h
    | error e => rw [hm] at h; exact absurd h (by simp)

theorem dlookup_eq_none_iff {α : Type} {d : Dict α} {k : String} :
    dlookup d k = none ↔ k ∉ dkeys d := by
  induction d with
  | nil => simp [dlookup, dkeys]
  | cons kv d ih =>
    obtain ⟨k0, v0⟩ := kv
    by_cases hk : k0 = k
    · subst hk
      simp [dlookup, dkeys_cons]
    · rw [show dlookup ((k0, v0) :: d) k = dlookup d k from by simp [dlookup, hk]]
      rw [ih, dkeys_cons, List.mem_cons]
      constructor
      · intro hnd hor
        rcases hor with h1 | h1
        · exact hk h1.symm
        · exact hnd h1
      · intro hn h1
        exact hn (Or.inr h1)

theorem dlookup_of_mem_nodup {α : Type} {d : Dict α} {k : String} {x : α}
    (hn : NodupKeys d) (h : (k, x) ∈ d) : dlookup d k = some x := by
  induction d with
  | nil => simp at h
  | cons kv d ih =>
    obtain ⟨k0, v0⟩ := kv
    rcases nodupKeys_cons.mp hn with ⟨h1, h2⟩
    rcases List.mem_cons.mp h with h3 | h3
    · obtain ⟨hk, hv⟩ := Prod.mk.injEq .. ▸ h3
      subst hk; subst hv
      simp [dlookup]
    · by_cases hk : k0 = k
      · subst hk
        exact absurd (mem_dkeys.mpr ⟨x, h3⟩) h1
      · simp [dlookup, hk, ih h2 h3]

theorem extract_go_fst_subset (ks : List String) (c : Dict CVal)
    (n : Dict (Option Nat)) {kv : String × CVal}
    (h : kv ∈ (extract_go c n ks).1) : kv ∈ c := by
  induction ks generalizing c n with
  | nil => exact h
  | cons k0 ks ih =>
    simp only [extract_go] at h
    cases hl : dlookup c k0 with
    | none => rw [hl] at h; exact ih _ _ h
    | some q => rw [hl] at h; exact mem_of_mem_dremove (ih _ _ h)

theorem extract_go_snd_keys (ks : List String) (c : Dict CVal)
    (n : Dict (Option Nat)) {k : String}
    (h : k ∈ dkeys (extract_go c n ks).2) : k ∈ dkeys n ∨ k ∈ ks := by
  induction ks generalizing c n with
  | nil => exact Or.inl h
  | cons k0 ks ih =>
    simp only [extract_go] at h
    cases hl : dlookup c k0 with
    | none =>
      rw [hl] at h
      rcases ih _ _ h with h1 | h1
      · exact Or.inl h1
      · exact Or.inr (List.mem_cons_of_mem _ h1)
    | some q =>
      rw [hl] at h
      rcases ih _ _ h with h1 | h1
      · rcases (mem_dkeys_dset n k0 k (cvalToOptInt q)).mp h1 with h2 | h2
        · exact Or.inr (by simp [h2])
        · exact Or.inl h2
      · exact Or.inr (List.mem_cons_of_mem _ h1)

theorem extract_go_snd_nodup (ks : List String) (c : Dict CVal)
    (n : Dict (Option Nat)) (hn : NodupKeys n) :
    NodupKeys (extract_go c n ks).2 := by
  induction ks generalizing c n with
  | nil => exact hn
  | cons k0 ks ih =>
    simp only [extract_go]
    cases hl : dlookup c k0 with
    | none => exact ih _ _ hn
    | some q => exact ih _ _ (nodupKeys_dset k0 (cvalToOptInt q) hn)

theorem extract_go_none_pres (ks : List String) (c : Dict CVal)
    (n : Dict (Option Nat)) {k : String} (h : dlookup c k = none) :
    dlookup (extract_go c n ks).1 k = none := by
  induction ks generalizing c n with
  | nil => exact h
  | cons k0 ks ih =>
    simp only [extract_go]
    cases hl : dlookup c k0 with
    | none => exact ih _ _ h
    | some q => exact ih _ _ (dlookup_dremove_none k0 h)

theorem extract_go_fst_none (ks : List String) (c : Dict CVal)
    (n : Dict (Option Nat)) {k : String} (hc : NodupKeys c) (hk : k ∈ ks) :
    dlookup (extract_go c n ks).1 k = none := by
  induction ks generalizing c n with
  | nil => simp at hk
  | cons k0 ks ih =>
    simp only [extract_go]
    rcases List.mem_cons.mp hk with h1 | h1
    · subst h1
      cases hl : dlookup c k with
      | none => exact extract_go_none_pres ks c n hl
      | some q => exact extract_go_none_pres ks _ _ (dlookup_dremove_self k hc)
    · cases hl : dlookup c k0 with
      | none => exact ih _ _ hc h1
      | some q => exact ih _ _ (nodupKeys_dremove k0 hc) h1

theorem mem_dkeys_filterMap_color {rem : Dict CVal} {k : String}
    (h : k ∈ dkeys (rem.filterMap colorEntryToInt)) : k ∈ dkeys rem := by
  rcases mem_dkeys.mp h with ⟨w, hw⟩
  rcases List.mem_filterMap.mp hw with ⟨kv, hkv, hf⟩
  refine mem_dkeys.mpr ⟨kv.2, ?_⟩
  obtain ⟨k1, v1⟩ := kv
  cases v1 with
  | color c =>
    simp only [colorEntryToInt] at hf
    obtain ⟨hk1, -⟩ := Prod.mk.injEq .. ▸ Option.some.inj hf
    exact hk1 ▸ hkv
  | cnone => simp [colorEntryToInt] at hf
  | other => simp [colorEntryToInt] at hf

theorem dlookup_filterMap_color {rem : Dict CVal} {k : String} {w : Option Nat}
    (h : dlookup (rem.filterMap colorEntryToInt) k = some w) :
    ∃ c : Color, (k, CVal.color c) ∈ rem ∧ w = some c.toInt := by
  rcases List.mem_filterMap.mp (mem_of_dlookup h) with ⟨kv, hkv, hf⟩
  obtain ⟨k1, v1⟩ := kv
  cases v1 with
  | color c =>
    simp only [colorEntryToInt] at hf
    obtain ⟨hk1, hw⟩ := Prod.mk.injEq .. ▸ Option.some.inj hf
    exact ⟨c, hk1 ▸ hkv, hw.symm⟩
  | cnone => simp [colorEntryToInt] at hf
  | other => simp [colorEntryToInt] at hf

/-! The claims. -/

/-- C2: with the reset flag set, `message_to_kitty` ignores all positional
tokens and collaborators — `parse_colors` is never consulted, no file is
read — and produces the payload whose color map is empty and whose `all` and
`configured` fields are both true, whatever `--all` and `--configured` were. -/
theorem reset_message_payload (pcl : LineParserT) (fs : FileSystemT)
    (eu : ExpandUserT) (nc : List String) (opts : CLIOptions) (args : List String)
    (h : opts.reset = true) :
    message_to_kitty pcl fs eu nc opts args =
      .ok { match_window := opts.match_, match_tab := opts.match_tab,
            all := true, configured := true, colors := [], reset := true } := by
  simp [message_to_kitty, h]

/-- Closed instance of `reset_message_payload`. -/
theorem reset_message_payload_witness :
    message_to_kitty pclSample fsSample euSample ncSample
        { optsSample with reset := true } ["missing.conf", "foreground=7"] =
      .ok { match_window := "", match_tab := "", all := true,
            configured := true, colors := [], reset := true } :=
  reset_message_payload pclSample fsSample euSample ncSample
    { optsSample with reset := true } ["missing.conf", "foreground=7"] rfl

/-- C3: scope isolation in `response_from_kitty`: every resolved window's
live color table is rewritten with the applied map unconditionally, while
the shared configured table is unchanged when `configured` is false and gets
the same map applied when `configured` is true. -/
theorem configured_scope_isolation (boss : BossState)
    (windows : List (Option Window)) (payload : Payload) :
    (response_from_kitty boss windows payload).live_profiles =
        ((resolvedWindows windows).map Window.color_profile).map
          (applyColors (applied_colors boss payload))
    ∧ (payload.configured = false →
        (response_from_kitty boss windows payload).configured_profile =
          boss.configured_profile)
    ∧ (payload.configured = true →
        (response_from_kitty boss windows payload).configured_profile =
          applyColors (applied_colors boss payload) boss.configured_profile) := by
  refine ⟨rfl, ?_, ?_⟩ <;>
    · intro h
      simp [response_from_kitty, boss_patch_colors, h]

/-- Closed instance of `configured_scope_isolation`: with `configured` false
the configured table survives untouched. -/
theorem configured_scope_isolation_witness :
    (response_from_kitty bossSample [some winSample] payloadSample).configured_profile =
      bossSample.configured_profile :=
  (configured_scope_isolation bossSample [some winSample] payloadSample).2.1 rfl

/-- C1: with `reset` set, the payload's color map is irrelevant to the
outcome, and every affected field ends at exactly the integer-converted
startup snapshot value: on every resolved window's live table, and on the
configured table when `configured` is set. -/
theorem reset_applies_startup_snapshot (boss : BossState)
    (windows : List (Option Window)) (payload : Payload) (cs : Dict (Option Nat))
    (h : payload.reset = true) :
    response_from_kitty boss windows { payload with colors := cs } =
        response_from_kitty boss windows payload
    ∧ (∀ p ∈ (response_from_kitty boss windows payload).live_profiles,
        ∀ k ov, dlookup (snapshotInts boss) k = some ov → p k = ov)
    ∧ (payload.configured = true →
        ∀ k ov, dlookup (snapshotInts boss) k = some ov →
          (response_from_kitty boss windows payload).configured_profile k = ov) := by
  refine ⟨?_, ?_, ?_⟩
  · simp [response_from_kitty, applied_colors, h]
  · intro p hp k ov hk
    simp only [response_from_kitty, patch_color_profiles, List.map_map] at hp
    rcases List.mem_map.mp hp with ⟨w, hw, rfl⟩
    simp [applyColors, applied_colors, h, hk]
  · intro hcfg k ov hk
    simp [response_from_kitty, boss_patch_colors, applied_colors, h, hcfg,
      applyColors, hk]

/-- Closed instance of `reset_applies_startup_snapshot`: the startup
background (255) is restored on the sole live table whatever the payload
carried. -/
theorem reset_applies_startup_snapshot_witness :
    applyColors (snapshotInts bossSample) tableEmpty "background" = some 255 :=
  (reset_applies_startup_snapshot bossSample [some winSample]
      { payloadSample with reset := true, configured := true }
      [("background", some 9)] rfl).2.1
    (applyColors (snapshotInts bossSample) tableEmpty)
    (List.Mem.head _) "background" (some 255) (by decide)

/-- C5: notification ordering: when `background` is in the applied map the
event trace is exactly a background-change notification followed by a
refresh, per resolved window in order; when `background` is absent the trace
is exactly the refreshes and no background-change notification is emitted. -/
theorem background_notification_order (boss : BossState)
    (windows : List (Option Window)) (payload : Payload) :
    (dmem (applied_colors boss payload) "background" = true →
      (response_from_kitty boss windows payload).events =
        (resolvedWindows windows).flatMap
          (fun w => [HostEvent.bgChangedFor w.id, HostEvent.refresh w.id]))
    ∧ (dmem (applied_colors boss payload) "background" = false →
      (response_from_kitty boss windows payload).events =
        (resolvedWindows windows).map (fun w => HostEvent.refresh w.id)
      ∧ ∀ i, HostEvent.bgChangedFor i ∉
          (response_from_kitty boss windows payload).events) := by
  constructor
  · intro h
    simp [response_from_kitty, h]
  · intro h
    constructor
    · simp [response_from_kitty, h, flatMap_single]
    · intro i
      simp [response_from_kitty, h, flatMap_single]

/-- Closed instance of `background_notification_order`: the sample payload
sets `background`, so the trace is bg-change then refresh for window 1. -/
theorem background_notification_order_witness :
    (response_from_kitty bossSample [some winSample] payloadSample).events =
      [HostEvent.bgChangedFor 1, HostEvent.refresh 1] :=
  (background_notification_order bossSample [some winSample] payloadSample).1
    (by decide)

/-- C9: idempotence of the host-side application: rerunning
`response_from_kitty` on the state it produced — same payload, windows now
carrying the patched live tables, boss carrying the patched configured
table — leaves both the live tables and the configured table unchanged. -/
theorem response_idempotent (boss : BossState) (windows : List (Option Window))
    (payload : Payload) :
    (response_from_kitty
        { boss with configured_profile :=
            (response_from_kitty boss windows payload).configured_profile }
        (setProfiles windows (response_from_kitty boss windows payload).live_profiles)
        payload).live_profiles =
      (response_from_kitty boss windows payload).live_profiles
    ∧ (response_from_kitty
        { boss with configured_profile :=
            (response_from_kitty boss windows payload).configured_profile }
        (setProfiles windows (response_from_kitty boss windows payload).live_profiles)
        payload).configured_profile =
      (response_from_kitty boss windows payload).configured_profile := by
  have hcol : ∀ cfg : ColorTable,
      applied_colors { boss with configured_profile := cfg } payload =
        applied_colors boss payload := by
    intro cfg
    simp [applied_colors, snapshotInts]
  constructor
  · simp only [response_from_kitty, patch_color_profiles, hcol]
    rw [resolved_setProfiles windows (applyColors (applied_colors boss payload))]
    rw [List.map_map]
    congr 1
    funext p
    exact applyColors_idem _ p
  · simp only [response_from_kitty, boss_patch_colors, hcol]
    cases hc : payload.configured <;> simp [hc, applyColors_idem]

/-- C7: dispatch on the assignment separator: a token containing `=` is
parsed inline as one configuration line with `=` replaced by a space — when
the config grammar yields the entry `(k, v)` for that line, the merge adds
exactly that one entry — while a token without `=` is opened as a file and
its lines are parsed with the same grammar and merged in. -/
theorem token_dispatch_inline_or_file (pcl : LineParserT) (fs : FileSystemT)
    (eu : ExpandUserT) (d : Dict CVal) (t : String) :
    (∀ k v, strContainsEq t = true →
      pcl (replaceEqWithSpace t) = .ok (some (k, v)) →
      mergeToken pcl fs eu d t = .ok (dset d k v))
    ∧ (∀ lines, strContainsEq t = false → fs (eu t) = some lines →
      mergeToken pcl fs eu d t =
        match parse_config pcl lines with
        | .ok pd => .ok (dupdate d pd)
        | .error m => .error (.malformed m)) := by
  constructor
  · intro k v hc hp
    simp [mergeToken, hc, parse_config_single hp, dupdate]
  · intro lines hc hp
    simp [mergeToken, hc, hp]

/-- Closed instance of `token_dispatch_inline_or_file`: the token
`foreground=7` contributes exactly the one entry `foreground ↦ 7`. -/
theorem token_dispatch_inline_or_file_witness :
    mergeToken pclSample fsSample euSample [] "foreground=7" =
      .ok [("foreground", CVal.color ⟨7⟩)] :=
  (token_dispatch_inline_or_file pclSample fsSample euSample [] "foreground=7").1
    "foreground" (CVal.color ⟨7⟩) (by rfl) (by rfl)

/-- C8: left-to-right accumulation and last-wins merge: token processing
splits sequentially over list append; a dict update answers every key from
the LAST entry for it, falling back to the earlier accumulated value; and
appending one more `k=v` token to successfully processed arguments leaves
`k` at exactly `v`, whatever any earlier token or file said. -/
theorem merge_left_to_right_last_wins (pcl : LineParserT) (fs : FileSystemT)
    (eu : ExpandUserT) :
    (∀ (d : Dict CVal) (xs ys : List String),
      mergeTokens pcl fs eu d (xs ++ ys) =
        match mergeTokens pcl fs eu d xs with
        | .ok d' => mergeTokens pcl fs eu d' ys
        | .error e => .error e)
    ∧ (∀ (d e : Dict CVal) (k : String) (v : CVal),
      lastEntry e k = some v → dlookup (dupdate d e) k = some v)
    ∧ (∀ (d e : Dict CVal) (k : String),
      lastEntry e k = none → dlookup (dupdate d e) k = dlookup d k)
    ∧ (∀ (d d1 : Dict CVal) (args : List String) (t k : String) (v : CVal),
      mergeTokens pcl fs eu d args = .ok d1 → strContainsEq t = true →
      pcl (replaceEqWithSpace t) = .ok (some (k, v)) →
      mergeTokens pcl fs eu d (args ++ [t]) = .ok (dset d1 k v)
      ∧ dlookup (dset d1 k v) k = some v) := by
  refine ⟨mergeTokens_append pcl fs eu, ?_, ?_, ?_⟩
  · intro d e k v h
    simp [dlookup_dupdate e d k, h]
  · intro d e k h
    simp [dlookup_dupdate e d k, h]
  intro d d1 args t k v hargs hc hp
  constructor
  · rw [mergeTokens_append, hargs]
    simp [mergeTokens, mergeToken, hc, parse_config_single hp, dupdate]
  · simp [dlookup_dset]

/-- Closed instance of `merge_left_to_right_last_wins`: `background=255`
followed by `background=1` leaves `background` at 1. -/
theorem merge_left_to_right_last_wins_witness :
    mergeTokens pclSample fsSample euSample []
        (["background=255"] ++ ["background=1"]) =
      .ok (dset [("background", CVal.color ⟨255⟩)] "background" (CVal.color ⟨1⟩))
    ∧ dlookup (dset [("background", CVal.color ⟨255⟩)] "background"
        (CVal.color ⟨1⟩)) "background" = some (CVal.color ⟨1⟩) :=
  (merge_left_to_right_last_wins pclSample fsSample euSample).2.2.2
    [] [("background", CVal.color ⟨255⟩)] ["background=255"] "background=1"
    "background" (CVal.color ⟨1⟩) (by rfl) (by rfl) (by rfl)

/-- C6: a positional token naming a missing file aborts client-side encoding
with `ParsingOfArgsFailed` naming the offending path, before any payload
exists: once the tokens before it merge successfully, the whole
`message_to_kitty` call returns the error and no payload. A malformed inline
entry aborts the same way, carrying the parser's message. -/
theorem missing_file_aborts_before_payload (pcl : LineParserT) (fs : FileSystemT)
    (eu : ExpandUserT) (nc : List String) (opts : CLIOptions)
    (pre post : List String) (t : String) (d : Dict CVal)
    (hreset : opts.reset = false)
    (hpre : mergeTokens pcl fs eu [] pre = .ok d) :
    (strContainsEq t = false → fs (eu t) = none →
      message_to_kitty pcl fs eu nc opts (pre ++ t :: post) =
        .error (.parsingOfArgsFailed
          ("The colors configuration file " ++ emph (eu t) ++ " was not found.")))
    ∧ (∀ m, strContainsEq t = true → pcl (replaceEqWithSpace t) = .error m →
      message_to_kitty pcl fs eu nc opts (pre ++ t :: post) =
        .error (.parsingOfArgsFailed m)) := by
  constructor
  · intro hne hfs
    have hmt : mergeTokens pcl fs eu [] (pre ++ t :: post) =
        .error (.fileNotFound (eu t)) := by
      rw [mergeTokens_append, hpre]
      simp [mergeTokens, mergeToken, hne, hfs]
    simp [message_to_kitty, hreset, parse_colors, hmt]
  · intro m hc hp
    have hmt : mergeTokens pcl fs eu [] (pre ++ t :: post) =
        .error (.malformed m) := by
      rw [mergeTokens_append, hpre]
      simp [mergeTokens, mergeToken, hc, parse_config, pc_go, hp]
    simp [message_to_kitty, hreset, parse_colors, hmt]

/-- Closed instance of `missing_file_aborts_before_payload`: a missing file
after one good token aborts with the path in the message. -/
theorem missing_file_aborts_before_payload_witness :
    message_to_kitty pclSample fsSample euSample ncSample optsSample
        (["foreground=7"] ++ "missing.conf" :: []) =
      .error (.parsingOfArgsFailed
        ("The colors configuration file " ++ emph (euSample "missing.conf") ++
          " was not found.")) :=
  (missing_file_aborts_before_payload pclSample fsSample euSample ncSample
      optsSample ["foreground=7"] [] "missing.conf"
      [("foreground", CVal.color ⟨7⟩)] rfl (by rfl)).1 (by rfl) (by rfl)

/-- C4: the nullable partition of `parse_colors`' result: on a successful
merge the call returns, every key outside the nullable set maps to a plain
non-null integer, and every key in the nullable set is answered solely by the
nullable map built by the extraction — nullable names never survive into the
generic integer portion. -/
theorem parse_colors_nullable_partition (pcl : LineParserT) (fs : FileSystemT)
    (eu : ExpandUserT) (nc : List String) (args : List String) (d : Dict CVal)
    (hmerge : mergeTokens pcl fs eu [] args = .ok d) :
    parse_colors pcl fs eu nc args = .ok (finishColors nc d)
    ∧ (∀ k v, k ∉ nc → dlookup (finishColors nc d) k = some v → v.isSome = true)
    ∧ (∀ k, k ∈ nc →
        dlookup (finishColors nc d) k = dlookup (extract_go d [] nc).2 k) := by
  have hd : NodupKeys d := mergeTokens_nodup (by simp [NodupKeys, dkeys]) hmerge
  have hnm : NodupKeys (extract_go d [] nc).2 :=
    extract_go_snd_nodup nc d [] (by simp [NodupKeys, dkeys])
  refine ⟨by simp [parse_colors, hmerge], ?_, ?_⟩
  · intro k v hk hlook
    rw [show finishColors nc d =
      dupdate ((extract_go d [] nc).1.filterMap colorEntryToInt)
        (extract_go d [] nc).2 from rfl] at hlook
    rw [dlookup_dupdate] at hlook
    cases hle : lastEntry (extract_go d [] nc).2 k with
    | some w =>
      have hmemk : k ∈ dkeys (extract_go d [] nc).2 := by
        by_contra hno
        rw [lastEntry_eq_none hno] at hle
        exact Option.noConfusion hle
      rcases extract_go_snd_keys nc d [] hmemk with h1 | h1
      · exact absurd h1 (by simp [dkeys])
      · exact absurd h1 hk
    | none =>
      rw [hle] at hlook
      rcases dlookup_filterMap_color hlook with ⟨c, -, hw⟩
      simp [hw]
  · intro k hk
    rw [show finishColors nc d =
      dupdate ((extract_go d [] nc).1.filterMap colorEntryToInt)
        (extract_go d [] nc).2 from rfl]
    rw [dlookup_dupdate, lastEntry_eq_dlookup k hnm]
    cases hnl : dlookup (extract_go d [] nc).2 k with
    | some w => rfl
    | none =>
      have hrem : dlookup (extract_go d [] nc).1 k = none :=
        extract_go_fst_none nc d [] hd hk
      have hans : dlookup
          ((extract_go d [] nc).1.filterMap colorEntryToInt) k = none := by
        rw [dlookup_eq_none_iff]
        intro hmem
        exact dlookup_eq_none_iff.mp hrem (mem_dkeys_filterMap_color hmem)
      exact hans

/-- Closed instance of `parse_colors_nullable_partition` on the sample theme
file, whose merged map is `background ↦ Color 255, cursor ↦ None`. -/
theorem parse_colors_nullable_partition_witness :
    parse_colors pclSample fsSample euSample ncSample ["theme.conf"] =
      .ok (finishColors ncSample
        [("background", CVal.color ⟨255⟩), ("cursor", CVal.cnone)]) :=
  (parse_colors_nullable_partition pclSample fsSample euSample ncSample
      ["theme.conf"] [("background", CVal.color ⟨255⟩), ("cursor", CVal.cnone)]
      (by rfl)).1

/-- C10: a merged entry whose key is outside the nullable set and whose value
is not a `Color` object is silently dropped: `parse_colors` still succeeds
and the key is absent from the returned map. -/
theorem non_color_entries_dropped (pcl : LineParserT) (fs : FileSystemT)
    (eu : ExpandUserT) (nc : List String) (args : List String)
    (d : Dict CVal) (k : String) (v : CVal)
    (hmerge : mergeTokens pcl fs eu [] args = .ok d)
    (hk : dlookup d k = some v)
    (hv : ∀ c : Color, v ≠ CVal.color c)
    (hnc : k ∉ nc) :
    parse_colors pcl fs eu nc args = .ok (finishColors nc d)
    ∧ dlookup (finishColors nc d) k = none := by
  have hd : NodupKeys d := mergeTokens_nodup (by simp [NodupKeys, dkeys]) hmerge
  refine ⟨by simp [parse_colors, hmerge], ?_⟩
  rw [show finishColors nc d =
    dupdate ((extract_go d [] nc).1.filterMap colorEntryToInt)
      (extract_go d [] nc).2 from rfl]
  have hle : lastEntry (extract_go d [] nc).2 k = none := by
    apply lastEntry_eq_none
    intro hmem
    rcases extract_go_snd_keys nc d [] hmem with h1 | h1
    · exact absurd h1 (by simp [dkeys])
    · exact hnc h1
  have hans : dlookup
      ((extract_go d [] nc).1.filterMap colorEntryToInt) k = none := by
    rw [dlookup_eq_none_iff]
    intro hmem
    rcases mem_dkeys.mp hmem with ⟨w, hw⟩
    rcases List.mem_filterMap.mp hw with ⟨kv, hkv, hf⟩
    obtain ⟨k1, v1⟩ := kv
    cases v1 with
    | color c =>
      simp only [colorEntryToInt] at hf
      have hf2 : (k1, some c.toInt) = (k, w) := Option.some.inj hf
      have hk1 : k1 = k := congrArg Prod.fst hf2
      subst hk1
      have hmemd : (k1, CVal.color c) ∈ d := extract_go_fst_subset nc d [] hkv
      have hlk := dlookup_of_mem_nodup hd hmemd
      rw [hk] at hlk
      exact hv c (Option.some.inj hlk)
    | cnone => simp [colorEntryToInt] at hf
    | other => simp [colorEntryToInt] at hf
  rw [dlookup_dupdate, hle]
  exact hans

/-- Closed instance of `non_color_entries_dropped`: the non-color option
line `scrollback=100` merges but is dropped from the result. -/
theorem non_color_entries_dropped_witness :
    parse_colors pclSample fsSample euSample ncSample ["scrollback=100"] =
      .ok (finishColors ncSample [("scrollback", CVal.other)])
    ∧ dlookup (finishColors ncSample [("scrollback", CVal.other)])
        "scrollback" = none :=
  non_color_entries_dropped pclSample fsSample euSample ncSample
    ["scrollback=100"] [("scrollback", CVal.other)] "scrollback" CVal.other
    (by rfl) (by rfl) (fun c h => CVal.noConfusion h) (by decide)

/-- Closed instance of `response_idempotent` on the sample state. -/
theorem response_idempotent_witness :
    (response_from_kitty
        { bossSample with configured_profile :=
            (response_from_kitty bossSample [some winSample] payloadSample).configured_profile }
        (setProfiles [some winSample]
          (response_from_kitty bossSample [some winSample] payloadSample).live_profiles)
        payloadSample).live_profiles =
      (response_from_kitty bossSample [some winSample] payloadSample).live_profiles :=
  (response_idempotent bossSample [some winSample] payloadSample).1

end KittyRC
